import Mathlib

/-!
# Verification of the anifeed adapter / normalization core

A shallow embedding in Lean 4 of the parts of the `anifeed` repository that
the specification's claims are about:

* `anifeed/constants/anime_status_enum.py` — the `AnimeStatus` enumeration;
* `anifeed/services/apis/mal_api.py` — the `MAL_STATUS_MAP` table, the
  `_translate_status` lookup and the `get_user_anime_list` pagination loop;
* `anifeed/services/apis/anilist_api.py` — the `ANILIST_STATUS_MAP` table and
  its `_translate_status` lookup;
* `anifeed/utils/commons.py` — `DictWrangler.find_value_recursively`;
* `anifeed/services/anime_service_factory.py` — the case-insensitive source
  registry (`register_anime_source` / `create_anime_api_service`);
* `anifeed/services/similarity_service.py` — `SimilarityService.compute`
  with its lazy model load (the numeric cosine over floating-point vectors
  is abstracted as a parameter; every claim proved here is independent of
  the similarity values themselves);
* `anifeed/services/parsers/nyaa_parser.py` — the torrent row parser;
* `anifeed/models/anime_model.py` and the parsers that construct `Anime`
  records.

Python dictionaries are embedded as insertion-ordered association lists,
Python `dict.get` as positional lookup, JSON-like payloads as the inductive
`PyVal`, and the HTTP layer of the pagination loop as a function from request
offsets to page responses, with explicit fuel standing for the unbounded
`while` loop.
-/

/-! ## Python dictionary primitives

Embedding of the two dict operations the code uses: `d.get(k)` (first match
by key, `None` when absent) and `d[k] = v` (replace in place when the key is
present, append otherwise — CPython dicts preserve insertion order). -/

def dictGet {κ α : Type} [DecidableEq κ] : List (κ × α) → κ → Option α
  | [], _ => none
  | (k', v) :: rest, k => if k' = k then some v else dictGet rest k

def dictSet {κ α : Type} [DecidableEq κ] : List (κ × α) → κ → α → List (κ × α)
  | [], k, v => [(k, v)]
  | (k', v') :: rest, k, v =>
      if k' = k then (k', v) :: rest else (k', v') :: dictSet rest k v

/-- Membership test `k in d` for a Python dict. -/
def dictHasKey {κ α : Type} [DecidableEq κ] (d : List (κ × α)) (k : κ) : Bool :=
  (dictGet d k).isSome

/-! ## `AnimeStatus` (`anifeed/constants/anime_status_enum.py`) -/

inductive AnimeStatus where
  | WATCHING
  | PLANNING
  | COMPLETED
  | DROPPED
  | PAUSED
  | REPEATING
deriving DecidableEq, Repr

/-! ## Status translation tables (`mal_api.py`, `anilist_api.py`) -/

def MAL_STATUS_MAP : List (AnimeStatus × String) :=
  [ (.WATCHING, "watching"),
    (.PLANNING, "plan_to_watch"),
    (.COMPLETED, "completed"),
    (.DROPPED, "dropped"),
    (.PAUSED, "on_hold"),
    (.REPEATING, "watching") ]

def ANILIST_STATUS_MAP : List (AnimeStatus × String) :=
  [ (.WATCHING, "CURRENT"),
    (.PLANNING, "PLANNING"),
    (.COMPLETED, "COMPLETED"),
    (.DROPPED, "DROPPED"),
    (.PAUSED, "PAUSED"),
    (.REPEATING, "REPEATING") ]

/-- Embedding of `MalApi._translate_status`:
`return MAL_STATUS_MAP.get(internal_status)`. -/
def malTranslateStatus (internal_status : AnimeStatus) : Option String :=
  dictGet MAL_STATUS_MAP internal_status

/-- Embedding of `AniListApi._translate_status`:
`return ANILIST_STATUS_MAP.get(internal_status)`. -/
def aniListTranslateStatus (internal_status : AnimeStatus) : Option String :=
  dictGet ANILIST_STATUS_MAP internal_status

/-! ## JSON-like Python values and `DictWrangler.find_value_recursively`
(`anifeed/utils/commons.py`) -/

/-- A deserialized JSON/Python value as the adapters hand it to the
normalizers: `None`, booleans, integers, strings, dicts and lists. -/
inductive PyVal where
  | none
  | bool (b : Bool)
  | int (n : Int)
  | str (s : String)
  | dict (entries : List (String × PyVal))
  | list (items : List PyVal)
deriving Repr

mutual

/-- Embedding of `DictWrangler.find_value_recursively(data, target_key)`: on a dict,
first the membership check `if target_key in data: return data[target_key]`,
then recursion into the values in key order; on a list, recursion into the
items in order; `None` (the not-found sentinel) otherwise.  A recursive
result equal to `None` is passed over (`if result is not None`). -/
def findValueRecursively (data : PyVal) (target_key : String) : PyVal :=
  match data with
  | .dict es =>
      match dictGet es target_key with
      | some v => v
      | Option.none => findInDictValues es target_key
  | .list xs => findInListItems xs target_key
  | _ => .none

/-- The `for key, value in data.items()` loop of `find_value_recursively`. -/
def findInDictValues (es : List (String × PyVal)) (target_key : String) : PyVal :=
  match es with
  | [] => .none
  | (_, v) :: rest =>
      match findValueRecursively v target_key with
      | .none => findInDictValues rest target_key
      | r => r

/-- The `for item in data` loop of `find_value_recursively`. -/
def findInListItems (xs : List PyVal) (target_key : String) : PyVal :=
  match xs with
  | [] => .none
  | x :: rest =>
      match findValueRecursively x target_key with
      | .none => findInListItems rest target_key
      | r => r

end

example : findValueRecursively (.dict [("a", .dict [("b", .dict [("c", .str "value")])])]) "c" = .str "value" := by rfl

mutual

/-- The specification's description of `find_value_recursively`, for
comparison with the code: the value of the *first* occurrence of the key
under a depth-first traversal that checks the current mapping's own keys
before descending into its values and visits sequence elements in order.
`Option.none` means the key is absent at every depth. -/
def specFindFirst (data : PyVal) (target_key : String) : Option PyVal :=
  match data with
  | .dict es =>
      match dictGet es target_key with
      | some v => some v
      | Option.none => specFindFirstEntries es target_key
  | .list xs => specFindFirstItems xs target_key
  | _ => Option.none

def specFindFirstEntries (es : List (String × PyVal)) (target_key : String) :
    Option PyVal :=
  match es with
  | [] => Option.none
  | (_, v) :: rest =>
      match specFindFirst v target_key with
      | some r => some r
      | Option.none => specFindFirstEntries rest target_key

def specFindFirstItems (xs : List PyVal) (target_key : String) : Option PyVal :=
  match xs with
  | [] => Option.none
  | x :: rest =>
      match specFindFirst x target_key with
      | some r => some r
      | Option.none => specFindFirstItems rest target_key

end

mutual

/-- Holds (`true`) when no occurrence of `target_key` anywhere in the structure is
bound to the value `None`. -/
def noNoneOcc (data : PyVal) (target_key : String) : Bool :=
  match data with
  | .dict es => noNoneOccEntries es target_key
  | .list xs => noNoneOccItems xs target_key
  | _ => true

def noNoneOccEntries (es : List (String × PyVal)) (target_key : String) : Bool :=
  match es with
  | [] => true
  | (k, v) :: rest =>
      (if k = target_key then
         (match v with | .none => false | _ => true)
       else true)
      && noNoneOcc v target_key && noNoneOccEntries rest target_key

def noNoneOccItems (xs : List PyVal) (target_key : String) : Bool :=
  match xs with
  | [] => true
  | x :: rest => noNoneOcc x target_key && noNoneOccItems rest target_key

end
theorem dictGet_ne_none_of_noNoneOccEntries :
    ∀ (es : List (String × PyVal)) (k : String) (v : PyVal),
      noNoneOccEntries es k = true → dictGet es k = some v → v ≠ PyVal.none := by
  intro es k
  induction es with
  | nil => intro v _ hg; simp [dictGet] at hg
  | cons p rest ih =>
      obtain ⟨k', v'⟩ := p
      intro v hocc hg
      simp only [noNoneOccEntries, Bool.and_eq_true] at hocc
      simp only [dictGet] at hg
      by_cases hk : k' = k
      · rw [if_pos hk] at hg
        obtain rfl : v' = v := by injection hg
        obtain ⟨⟨h1, _⟩, _⟩ := hocc
        rw [if_pos hk] at h1
        intro hv
        subst hv
        simp at h1
      · rw [if_neg hk] at hg
        exact ih v hocc.2 hg

theorem findValueRecursively_eq_specFindFirst :
    ∀ (data : PyVal) (target_key : String),
      noNoneOcc data target_key = true →
      findValueRecursively data target_key
        = (specFindFirst data target_key).getD PyVal.none ∧
      specFindFirst data target_key ≠ some PyVal.none := by
  intro data target_key
  refine noNoneOcc.induct
    (fun d k => noNoneOcc d k = true →
      findValueRecursively d k = (specFindFirst d k).getD PyVal.none ∧
      specFindFirst d k ≠ some PyVal.none)
    (fun xs k => noNoneOccItems xs k = true →
      findInListItems xs k = (specFindFirstItems xs k).getD PyVal.none ∧
      specFindFirstItems xs k ≠ some PyVal.none)
    (fun es k => noNoneOccEntries es k = true →
      findInDictValues es k = (specFindFirstEntries es k).getD PyVal.none ∧
      specFindFirstEntries es k ≠ some PyVal.none)
    ?dictCase ?listCase ?primCase ?enil ?econs ?inil ?icons data target_key
  case dictCase =>
    intro k es ih hocc
    have hocc' : noNoneOccEntries es k = true := by
      simpa [noNoneOcc] using hocc
    simp only [findValueRecursively, specFindFirst]
    cases hg : dictGet es k with
    | some v =>
        refine ⟨rfl, ?_⟩
        intro hcontra
        have hv : v = PyVal.none := by injection hcontra
        exact dictGet_ne_none_of_noNoneOccEntries es k v hocc' hg hv
    | none => exact ih hocc'
  case listCase =>
    intro k xs ih hocc
    have hocc' : noNoneOccItems xs k = true := by simpa [noNoneOcc] using hocc
    simpa [findValueRecursively, specFindFirst] using ih hocc'
  case primCase =>
    intro t k hnd hnl _
    cases t with
    | dict es => exact absurd rfl (hnd es)
    | list xs => exact absurd rfl (hnl xs)
    | none => simp [findValueRecursively, specFindFirst]
    | bool b => simp [findValueRecursively, specFindFirst]
    | int n => simp [findValueRecursively, specFindFirst]
    | str s => simp [findValueRecursively, specFindFirst]
  case enil =>
    intro k _
    simp [findInDictValues, specFindFirstEntries]
  case econs =>
    intro k k' v rest ihv ihrest hocc
    simp only [noNoneOccEntries, Bool.and_eq_true] at hocc
    obtain ⟨⟨_, hv⟩, hrest⟩ := hocc
    obtain ⟨hfind, hne⟩ := ihv hv
    simp only [findInDictValues, specFindFirstEntries]
    cases hsv : specFindFirst v k with
    | none =>
        rw [hsv] at hfind
        simp only [Option.getD] at hfind
        rw [hfind]
        exact ihrest hrest
    | some r =>
        rw [hsv] at hfind hne
        have hr : r ≠ PyVal.none := fun h => hne (by rw [h])
        simp only [Option.getD] at hfind
        rw [hfind]
        cases r with
        | none => exact absurd rfl hr
        | bool b => exact ⟨rfl, by simp⟩
        | int n => exact ⟨rfl, by simp⟩
        | str s => exact ⟨rfl, by simp⟩
        | dict es => exact ⟨rfl, by simp⟩
        | list xs => exact ⟨rfl, by simp⟩
  case inil =>
    intro k _
    simp [findInListItems, specFindFirstItems]
  case icons =>
    intro k x rest ihx ihrest hocc
    simp only [noNoneOccItems, Bool.and_eq_true] at hocc
    obtain ⟨hx, hrest⟩ := hocc
    obtain ⟨hfind, hne⟩ := ihx hx
    simp only [findInListItems, specFindFirstItems]
    cases hsv : specFindFirst x k with
    | none =>
        rw [hsv] at hfind
        simp only [Option.getD] at hfind
        rw [hfind]
        exact ihrest hrest
    | some r =>
        rw [hsv] at hfind hne
        have hr : r ≠ PyVal.none := fun h => hne (by rw [h])
        simp only [Option.getD] at hfind
        rw [hfind]
        cases r with
        | none => exact absurd rfl hr
        | bool b => exact ⟨rfl, by simp⟩
        | int n => exact ⟨rfl, by simp⟩
        | str s => exact ⟨rfl, by simp⟩
        | dict es => exact ⟨rfl, by simp⟩
        | list xs => exact ⟨rfl, by simp⟩


mutual

/-- Holds (`true`) when every occurrence of `target_key` in the structure is bound
to the value `None` (in particular when there is no occurrence at all). -/
def onlyNoneOcc (data : PyVal) (target_key : String) : Bool :=
  match data with
  | .dict es => onlyNoneOccEntries es target_key
  | .list xs => onlyNoneOccItems xs target_key
  | _ => true

def onlyNoneOccEntries (es : List (String × PyVal)) (target_key : String) : Bool :=
  match es with
  | [] => true
  | (k, v) :: rest =>
      (if k = target_key then
         (match v with | .none => true | _ => false)
       else true)
      && onlyNoneOcc v target_key && onlyNoneOccEntries rest target_key

def onlyNoneOccItems (xs : List PyVal) (target_key : String) : Bool :=
  match xs with
  | [] => true
  | x :: rest => onlyNoneOcc x target_key && onlyNoneOccItems rest target_key

end

theorem dictGet_eq_none_of_onlyNoneOccEntries :
    ∀ (es : List (String × PyVal)) (k : String) (v : PyVal),
      onlyNoneOccEntries es k = true → dictGet es k = some v → v = PyVal.none := by
  intro es k
  induction es with
  | nil => intro v _ hg; simp [dictGet] at hg
  | cons p rest ih =>
      obtain ⟨k', v'⟩ := p
      intro v hocc hg
      simp only [onlyNoneOccEntries, Bool.and_eq_true] at hocc
      simp only [dictGet] at hg
      by_cases hk : k' = k
      · rw [if_pos hk] at hg
        obtain rfl : v' = v := by injection hg
        obtain ⟨⟨h1, _⟩, _⟩ := hocc
        rw [if_pos hk] at h1
        cases v' with
        | none => rfl
        | bool b => simp at h1
        | int n => simp at h1
        | str s => simp at h1
        | dict es' => simp at h1
        | list xs' => simp at h1
      · rw [if_neg hk] at hg
        exact ih v hocc.2 hg

/-- A structure all of whose occurrences of the key carry `None` yields the
not-found sentinel. -/
theorem findValueRecursively_of_onlyNoneOcc :
    ∀ (data : PyVal) (target_key : String),
      onlyNoneOcc data target_key = true →
      findValueRecursively data target_key = PyVal.none := by
  intro data target_key
  refine onlyNoneOcc.induct
    (fun d k => onlyNoneOcc d k = true → findValueRecursively d k = PyVal.none)
    (fun xs k => onlyNoneOccItems xs k = true → findInListItems xs k = PyVal.none)
    (fun es k => onlyNoneOccEntries es k = true → findInDictValues es k = PyVal.none)
    ?dictCase ?listCase ?primCase ?enil ?econs ?inil ?icons data target_key
  case dictCase =>
    intro k es ih hocc
    have hocc' : onlyNoneOccEntries es k = true := by simpa [onlyNoneOcc] using hocc
    simp only [findValueRecursively]
    cases hg : dictGet es k with
    | some v =>
        exact dictGet_eq_none_of_onlyNoneOccEntries es k v hocc' hg
    | none => exact ih hocc'
  case listCase =>
    intro k xs ih hocc
    have hocc' : onlyNoneOccItems xs k = true := by simpa [onlyNoneOcc] using hocc
    simpa [findValueRecursively] using ih hocc'
  case primCase =>
    intro t k hnd hnl _
    cases t with
    | dict es => exact absurd rfl (hnd es)
    | list xs => exact absurd rfl (hnl xs)
    | none => simp [findValueRecursively]
    | bool b => simp [findValueRecursively]
    | int n => simp [findValueRecursively]
    | str s => simp [findValueRecursively]
  case enil =>
    intro k _
    simp [findInDictValues]
  case econs =>
    intro k k' v rest ihv ihrest hocc
    simp only [onlyNoneOccEntries, Bool.and_eq_true] at hocc
    obtain ⟨⟨_, hv⟩, hrest⟩ := hocc
    simp only [findInDictValues]
    rw [ihv hv]
    exact ihrest hrest
  case inil =>
    intro k _
    simp [findInListItems]
  case icons =>
    intro k x rest ihx ihrest hocc
    simp only [onlyNoneOccItems, Bool.and_eq_true] at hocc
    obtain ⟨hx, hrest⟩ := hocc
    simp only [findInListItems]
    rw [ihx hx]
    exact ihrest hrest

/-- Items whose every occurrence of the key is `None`-valued are passed over
by the list loop. -/
theorem findInListItems_append_of_onlyNone
    (k : String) (pre post : List PyVal)
    (h : ∀ v ∈ pre, onlyNoneOcc v k = true) :
    findInListItems (pre ++ post) k = findInListItems post k := by
  induction pre with
  | nil => rfl
  | cons x rest ih =>
      simp only [List.cons_append, findInListItems]
      rw [findValueRecursively_of_onlyNoneOcc x k (h x (by simp))]
      exact ih (fun v hv => h v (by simp [hv]))

theorem dictGet_append_of_no_key
    (k : String) (es1 es2 : List (String × PyVal))
    (h : ∀ p ∈ es1, p.1 ≠ k) :
    dictGet (es1 ++ es2) k = dictGet es2 k := by
  induction es1 with
  | nil => rfl
  | cons p rest ih =>
      obtain ⟨k', v'⟩ := p
      simp only [List.cons_append, dictGet]
      rw [if_neg (h (k', v') (by simp))]
      exact ih (fun q hq => h q (by simp [hq]))

theorem findInDictValues_append_of_onlyNone
    (k : String) (es1 es2 : List (String × PyVal))
    (h : ∀ p ∈ es1, onlyNoneOcc p.2 k = true) :
    findInDictValues (es1 ++ es2) k = findInDictValues es2 k := by
  induction es1 with
  | nil => rfl
  | cons p rest ih =>
      obtain ⟨k', v'⟩ := p
      simp only [List.cons_append, findInDictValues]
      rw [findValueRecursively_of_onlyNoneOcc v' k (h (k', v') (by simp))]
      exact ih (fun q hq => h q (by simp [hq]))

/-! ## Claims C2 and C10 -/

/-- A nested payload whose first occurrence of `"k"` (in the claimed
outer-then-left-to-right depth-first order) is bound to `None`, while a
later occurrence carries `5`. -/
def c2CounterData : PyVal :=
  .dict [("a", .dict [("k", .none)]), ("b", .dict [("k", .int 5)])]

/-- C2, counterexample: on `{"a": {"k": None}, "b": {"k": 5}}` the first
occurrence of `"k"` under the claimed depth-first order carries `None`, yet
`find_value_recursively` returns `5` — the claim's "value of the first
occurrence" reading is false on the code. -/
theorem c2_counterexample :
    specFindFirst c2CounterData "k" = some PyVal.none ∧
    findValueRecursively c2CounterData "k" = PyVal.int 5 ∧
    findValueRecursively c2CounterData "k"
      ≠ (specFindFirst c2CounterData "k").getD PyVal.none := by
  refine ⟨rfl, rfl, ?_⟩
  intro h
  exact PyVal.noConfusion h

/-- C2 (amended): for every acyclic nested structure in which no occurrence
of the key is bound to `None`, `find_value_recursively(data, key)` returns
the value of the first occurrence of the key under a depth-first traversal
that checks the current mapping's own keys before descending into its
values and visits sequence elements in order, and returns the not-found
sentinel `None` (not an error) when the key is absent at every depth — in
particular on primitive or empty input. -/
theorem c2_find_first_occurrence (data : PyVal) (target_key : String)
    (h : noNoneOcc data target_key = true) :
    findValueRecursively data target_key
      = (specFindFirst data target_key).getD PyVal.none :=
  (findValueRecursively_eq_specFindFirst data target_key h).1

/-- The nested-list payload from the module's own docstring. -/
def c2WitnessData : PyVal :=
  .dict [("items", .list
    [ .dict [("id", .int 1)],
      .dict [("id", .int 2), ("name", .str "test")] ])]

theorem c2_witness :
    noNoneOcc c2WitnessData "name" = true ∧
    findValueRecursively c2WitnessData "name"
      = (specFindFirst c2WitnessData "name").getD PyVal.none ∧
    findValueRecursively c2WitnessData "name" = PyVal.str "test" :=
  ⟨rfl, c2_find_first_occurrence c2WitnessData "name" rfl, rfl⟩

/-- C10: an occurrence of the target key bound to `None` below the
immediate key check is treated as not found: (a) a structure whose every
occurrence of the key carries `None` yields the sentinel `None`; (b) in a
sequence, elements whose occurrences are all `None`-valued are passed over
and the search continues with the rest, returning a later occurrence's
non-`None` value if one exists; (c) likewise for the values of a mapping
that does not bind the key among the skipped entries. -/
theorem c10_none_occurrence_skipped :
    (∀ (data : PyVal) (k : String), onlyNoneOcc data k = true →
        findValueRecursively data k = PyVal.none) ∧
    (∀ (k : String) (pre post : List PyVal),
        (∀ v ∈ pre, onlyNoneOcc v k = true) →
        findValueRecursively (.list (pre ++ post)) k
          = findValueRecursively (.list post) k) ∧
    (∀ (k : String) (es1 es2 : List (String × PyVal)),
        (∀ p ∈ es1, p.1 ≠ k ∧ onlyNoneOcc p.2 k = true) →
        findValueRecursively (.dict (es1 ++ es2)) k
          = findValueRecursively (.dict es2) k) := by
  refine ⟨findValueRecursively_of_onlyNoneOcc, ?_, ?_⟩
  · intro k pre post h
    simp only [findValueRecursively]
    exact findInListItems_append_of_onlyNone k pre post h
  · intro k es1 es2 h
    simp only [findValueRecursively]
    rw [dictGet_append_of_no_key k es1 es2 (fun p hp => (h p hp).1)]
    cases dictGet es2 k with
    | some v => rfl
    | none =>
        exact findInDictValues_append_of_onlyNone k es1 es2
          (fun p hp => (h p hp).2)

theorem c10_witness :
    findValueRecursively
        (.list ([.dict [("k", .none)]] ++ [.dict [("k", .int 7)]])) "k"
      = findValueRecursively (.list [.dict [("k", .int 7)]]) "k" ∧
    findValueRecursively (.list [.dict [("k", .int 7)]]) "k" = PyVal.int 7 ∧
    findValueRecursively (.dict [("k", .none)]) "k" = PyVal.none :=
  ⟨c10_none_occurrence_skipped.2.1 "k" [.dict [("k", .none)]]
      [.dict [("k", .int 7)]]
      (fun v hv => by rw [List.mem_singleton] at hv; subst hv; rfl),
   rfl,
   c10_none_occurrence_skipped.1 (.dict [("k", .none)]) "k" rfl⟩

/-! ## Claim C4 — status translation tables -/

/-- C4: for all six `AnimeStatus` values each adapter's `_translate_status`
returns a defined, non-empty source status string (the lookup is total, so
it never raises), and the lookup yields `None` exactly for inputs outside
the table — for these two tables, no `AnimeStatus` input at all. -/
theorem c4_status_translation_total :
    (∀ s : AnimeStatus,
       ∃ v : String, malTranslateStatus s = some v ∧ v ≠ "") ∧
    (∀ s : AnimeStatus,
       ∃ v : String, aniListTranslateStatus s = some v ∧ v ≠ "") ∧
    (∀ s : AnimeStatus,
       (malTranslateStatus s = none ↔ s ∉ MAL_STATUS_MAP.map Prod.fst) ∧
       (aniListTranslateStatus s = none ↔ s ∉ ANILIST_STATUS_MAP.map Prod.fst)) := by
  refine ⟨?_, ?_, ?_⟩
  · intro s; cases s <;> exact ⟨_, rfl, by decide⟩
  · intro s; cases s <;> exact ⟨_, rfl, by decide⟩
  · intro s; cases s <;> exact ⟨by decide, by decide⟩

/-! ## Claim C9 — the anime source registry
(`anifeed/services/anime_service_factory.py`)

The registry is embedded generically in the factory type `φ`: the Python
module stores callables producing `(BaseApi, BaseParser)` pairs, whose
construction is outside the registry logic under test. -/

/-- Python's `str.lower()`, character by character (the registered source
names are ASCII). -/
def pyLower (s : String) : String := String.mk (s.data.map Char.toLower)

/-- Embedding of `register_anime_source(name, factory)`:
`_ANIME_SOURCE_REGISTRY[name.lower()] = factory`. -/
def register_anime_source {φ : Type} (registry : List (String × φ))
    (name : String) (factory : φ) : List (String × φ) :=
  dictSet registry (pyLower name) factory

/-- The outcome of `create_anime_api_service`: either the resolved factory
or the `AnimeSourceError` listing the available source names. -/
inductive CreateServiceResult (φ : Type) where
  | ok (factory : φ)
  | unknownSource (available : List String)
deriving Repr

/-- Embedding of `create_anime_api_service(source)`: look up `source.lower()`; raise
`AnimeSourceError` listing the registered names when absent. -/
def create_anime_api_service {φ : Type} (registry : List (String × φ))
    (source : String) : CreateServiceResult φ :=
  match dictGet registry (pyLower source) with
  | some factory => .ok factory
  | none => .unknownSource (registry.map Prod.fst)

theorem dictGet_dictSet_self {κ α : Type} [DecidableEq κ]
    (d : List (κ × α)) (k : κ) (v : α) :
    dictGet (dictSet d k v) k = some v := by
  induction d with
  | nil => simp [dictSet, dictGet]
  | cons p rest ih =>
      obtain ⟨k', v'⟩ := p
      by_cases hk : k' = k
      · simp [dictSet, dictGet, hk]
      · simp [dictSet, dictGet, hk, ih]

/-- C9: after `register_anime_source(name, factory)`, a
`create_anime_api_service` lookup with any case variant of `name` (any
string with the same lowercase form) resolves to that factory — whatever
the registry held for that name before, so re-registration silently
overwrites. -/
theorem c9_register_then_lookup {φ : Type} (registry : List (String × φ))
    (name variant : String) (factory : φ)
    (h : pyLower variant = pyLower name) :
    create_anime_api_service (register_anime_source registry name factory)
      variant = .ok factory := by
  unfold create_anime_api_service register_anime_source
  rw [h, dictGet_dictSet_self]

theorem c9_witness :
    pyLower "mAl" = pyLower "Mal" ∧
    create_anime_api_service
        (register_anime_source [("anilist", 1), ("mal", 2)] "Mal" 3) "mAl"
      = .ok 3 :=
  ⟨by decide, c9_register_then_lookup [("anilist", 1), ("mal", 2)] "Mal" "mAl" 3
    (by decide)⟩

/-! ## Claims C3 and C7 — `MalApi.get_user_anime_list` pagination
(`anifeed/services/apis/mal_api.py`)

The HTTP layer is embedded as a function from the request offset to the
page response; the unbounded `while has_paging` loop is given explicit
fuel.  `r.raise_for_status()` raises exactly for 4xx/5xx status codes. -/

/-- One decoded page response: the HTTP status code, the `"data"` entry
list, and the value of `paging.next` (`none` for a missing or `null`
marker). -/
structure MalPage (α : Type) where
  status : ℕ
  data : List α
  next : Option String

/-- Python truthiness of the `paging.next` value (`None` and the empty
string are falsy). -/
def pyTruthy : Option String → Bool
  | none => false
  | some s => !s.isEmpty

/-- Predicate for `requests.Response.raise_for_status`: it raises exactly for
400 ≤ code < 600. -/
def raisesForStatus (status : ℕ) : Bool :=
  decide (400 ≤ status) && decide (status < 600)

/-- The outcome of the pagination loop: the accumulated `response["data"]`
together with the offsets requested, an `HTTPError` carrying no entries, or
fuel exhaustion (the Python loop spinning forever). -/
inductive MalFetchResult (α : Type) where
  | ok (entries : List α) (offsets : List ℕ)
  | httpError (status : ℕ) (offset : ℕ)
  | outOfFuel
deriving Repr

/-- The `while has_paging` loop of `get_user_anime_list`: request the page
at the current offset, raise on a non-success status, extend the
accumulated `response["data"]`, and either advance the offset by
`payload_dict["limit"]` (1000) when `aux.get("paging").get("next")` is
truthy or stop. -/
def malFetchLoop {α : Type} (pages : ℕ → MalPage α) :
    ℕ → ℕ → List α → List ℕ → MalFetchResult α
  | 0, _, _, _ => .outOfFuel
  | fuel + 1, offset, acc, reqs =>
      let r := pages offset
      if raisesForStatus r.status then .httpError r.status offset
      else
        let acc' := acc ++ r.data
        let reqs' := reqs ++ [offset]
        if pyTruthy r.next then malFetchLoop pages fuel (offset + 1000) acc' reqs'
        else .ok acc' reqs'

/-- Embedding of `MalApi.get_user_anime_list`: the loop starts at offset 0 with
`response = dict(data=list())`. -/
def get_user_anime_list {α : Type} (pages : ℕ → MalPage α) (fuel : ℕ) :
    MalFetchResult α :=
  malFetchLoop pages fuel 0 [] []

theorem malFetchLoop_ok_inv {α : Type} (pages : ℕ → MalPage α) :
    ∀ (fuel offset : ℕ) (acc : List α) (reqs : List ℕ)
      (entries : List α) (offsets : List ℕ),
      malFetchLoop pages fuel offset acc reqs = .ok entries offsets →
      ∃ (newOffsets : List ℕ) (pre : List ℕ) (last : ℕ),
        offsets = reqs ++ newOffsets ∧
        newOffsets = pre ++ [last] ∧
        (∀ o ∈ newOffsets, raisesForStatus (pages o).status = false) ∧
        (∀ o ∈ pre, pyTruthy (pages o).next = true) ∧
        pyTruthy (pages last).next = false := by
  intro fuel
  induction fuel with
  | zero => intro offset acc reqs entries offsets h; simp [malFetchLoop] at h
  | succ n ih =>
      intro offset acc reqs entries offsets h
      simp only [malFetchLoop] at h
      by_cases hs : raisesForStatus (pages offset).status
      · rw [if_pos hs] at h; exact absurd h (by simp)
      · rw [if_neg hs] at h
        by_cases hn : pyTruthy (pages offset).next
        · rw [if_pos hn] at h
          obtain ⟨newOffsets, pre, last, h1, h2, h3, h4, h5⟩ :=
            ih (offset + 1000) (acc ++ (pages offset).data)
              (reqs ++ [offset]) entries offsets h
          refine ⟨offset :: newOffsets, offset :: pre, last, ?_, ?_, ?_, ?_, h5⟩
          · simpa using h1
          · simp [h2]
          · intro o ho
            rcases List.mem_cons.mp ho with rfl | ho'
            · simpa using hs
            · exact h3 o ho'
          · intro o ho
            rcases List.mem_cons.mp ho with rfl | ho'
            · exact hn
            · exact h4 o ho'
        · rw [if_neg hn] at h
          obtain ⟨-, h2⟩ : acc ++ (pages offset).data = entries ∧
              reqs ++ [offset] = offsets := by
            constructor <;> injection h
          refine ⟨[offset], [], offset, by simp [h2], by simp, ?_, by simp, ?_⟩
          · intro o ho
            rw [List.mem_singleton] at ho
            subst ho
            simpa using hs
          · simpa using hn

/-- C3: (a) with `paging.next` present (truthy) on the page at offset 0 and
absent on the page at offset 1000 — both pages successful — the call issues
exactly two page requests, the second with the offset advanced by the fixed
page size of 1000, and returns the concatenation of both pages' entries in
original order; (b) in general a run that returns issued a sequence of
requests in which every page before the last carried a truthy next-page
marker, and exactly the last page's marker was absent (falsy). -/
theorem c3_two_page_pagination :
    (∀ (α : Type) (pages : ℕ → MalPage α) (fuel : ℕ),
       2 ≤ fuel →
       raisesForStatus (pages 0).status = false →
       raisesForStatus (pages 1000).status = false →
       pyTruthy (pages 0).next = true →
       (pages 1000).next = none →
       get_user_anime_list pages fuel
         = .ok ((pages 0).data ++ (pages 1000).data) [0, 1000]) ∧
    (∀ (α : Type) (pages : ℕ → MalPage α) (fuel : ℕ)
       (entries : List α) (offsets : List ℕ),
       get_user_anime_list pages fuel = .ok entries offsets →
       ∃ (pre : List ℕ) (last : ℕ),
         offsets = pre ++ [last] ∧
         pyTruthy (pages last).next = false ∧
         ∀ o ∈ pre, pyTruthy (pages o).next = true) := by
  constructor
  · intro α pages fuel h2 hs1 hs2 hn1 hn2
    obtain ⟨n, rfl⟩ : ∃ n, fuel = n + 2 := ⟨fuel - 2, by omega⟩
    show malFetchLoop pages (n + 2) 0 [] [] = _
    have step1 : malFetchLoop pages (n + 2) 0 [] []
        = malFetchLoop pages (n + 1) 1000 ((pages 0).data) [0] := by
      simp only [malFetchLoop, hs1, hn1]
      simp
    rw [step1]
    simp only [malFetchLoop, hs2, hn2, pyTruthy]
    simp
  · intro α pages fuel entries offsets h
    obtain ⟨newOffsets, pre, last, h1, h2, -, h4, h5⟩ :=
      malFetchLoop_ok_inv pages fuel 0 [] [] entries offsets h
    exact ⟨pre, last, by simp [h1, h2], h5, h4⟩

theorem c3_witness :
    get_user_anime_list
        (fun o => if o = 0
          then { status := 200, data := [10, 11], next := some "url2" }
          else { status := 200, data := ([12] : List ℕ), next := none })
        2
      = .ok [10, 11, 12] [0, 1000] := by
  have := c3_two_page_pagination.1 ℕ
    (fun o => if o = 0
      then { status := 200, data := [10, 11], next := some "url2" }
      else { status := 200, data := ([12] : List ℕ), next := none })
    2 (by decide) (by decide) (by decide) (by decide) (by decide)
  simpa using this

/-- C7: during `get_user_anime_list` pagination, a page answered with a
non-success HTTP status (one `raise_for_status` raises on) aborts the call
with `HTTPError` — an outcome carrying no entry collection — so a returned
collection only ever comes from a run in which every requested page
succeeded; in particular a failing first page yields the error outcome
immediately. -/
theorem c7_raise_on_http_error :
    (∀ (α : Type) (pages : ℕ → MalPage α) (fuel : ℕ)
       (entries : List α) (offsets : List ℕ),
       get_user_anime_list pages fuel = .ok entries offsets →
       ∀ o ∈ offsets, raisesForStatus (pages o).status = false) ∧
    (∀ (α : Type) (pages : ℕ → MalPage α) (fuel : ℕ),
       1 ≤ fuel →
       raisesForStatus (pages 0).status = true →
       get_user_anime_list pages fuel = .httpError (pages 0).status 0) := by
  constructor
  · intro α pages fuel entries offsets h
    obtain ⟨newOffsets, pre, last, h1, -, h3, -, -⟩ :=
      malFetchLoop_ok_inv pages fuel 0 [] [] entries offsets h
    intro o ho
    refine h3 o ?_
    rw [h1] at ho
    simpa using ho
  · intro α pages fuel h1 hs
    obtain ⟨n, rfl⟩ : ∃ n, fuel = n + 1 := ⟨fuel - 1, by omega⟩
    show malFetchLoop pages (n + 1) 0 [] [] = _
    simp only [malFetchLoop, hs]
    simp

theorem c7_witness :
    get_user_anime_list
        (fun _ => { status := 503, data := ([0] : List ℕ), next := none })
        5
      = .httpError 503 0 :=
  c7_raise_on_http_error.2 ℕ
    (fun _ => { status := 503, data := ([0] : List ℕ), next := none })
    5 (by decide) (by decide)

/-! ## Claims C5 and C6 — `SimilarityService`
(`anifeed/services/similarity_service.py`)

`list.sort(key=..., reverse=True)` is a stable sort by non-increasing key;
it is embedded as an insertion sort with exactly that specification (any
two stable sorts under the same comparison agree extensionally).  The
embedding model (`encode`) is a black box producing one vector per input
string, per `EmbeddingModelProtocol`; `_cosine_similarity` computes over
floating-point vectors, so the similarity score function is likewise kept
as an explicit parameter — every property claimed is independent of the
numeric scores. -/

/-- Insert `x` into a list sorted by non-increasing `key`, before the first
element whose key is not greater — so before any element with an equal key,
which is what keeps the sort stable. -/
def insertDesc {α : Type} (key : α → ℚ) (x : α) : List α → List α
  | [] => [x]
  | y :: ys => if key x < key y then y :: insertDesc key x ys else x :: y :: ys

/-- Stable sort by non-increasing key:
`results.sort(key=lambda x: x[1], reverse=True)`. -/
def sortDescBy {α : Type} (key : α → ℚ) : List α → List α
  | [] => []
  | x :: xs => insertDesc key x (sortDescBy key xs)

theorem length_insertDesc {α : Type} (key : α → ℚ) (x : α) :
    ∀ l : List α, (insertDesc key x l).length = l.length + 1 := by
  intro l
  induction l with
  | nil => rfl
  | cons y ys ih =>
      simp only [insertDesc]
      by_cases h : key x < key y
      · simp [h, ih]
      · simp [h]

theorem length_sortDescBy {α : Type} (key : α → ℚ) :
    ∀ l : List α, (sortDescBy key l).length = l.length := by
  intro l
  induction l with
  | nil => rfl
  | cons x xs ih => simp [sortDescBy, length_insertDesc, ih]

theorem mem_insertDesc {α : Type} (key : α → ℚ) (x z : α) :
    ∀ l : List α, z ∈ insertDesc key x l ↔ z = x ∨ z ∈ l := by
  intro l
  induction l with
  | nil => simp [insertDesc]
  | cons y ys ih =>
      simp only [insertDesc]
      by_cases h : key x < key y
      · simp only [if_pos h, List.mem_cons, ih]
        try tauto
      · simp only [if_neg h, List.mem_cons]
        try tauto

theorem pairwise_insertDesc {α : Type} (key : α → ℚ) (x : α) :
    ∀ l : List α, List.Pairwise (fun a b => key b ≤ key a) l →
      List.Pairwise (fun a b => key b ≤ key a) (insertDesc key x l) := by
  intro l
  induction l with
  | nil => intro _; simp [insertDesc]
  | cons y ys ih =>
      intro hp
      rw [List.pairwise_cons] at hp
      obtain ⟨hy, hys⟩ := hp
      simp only [insertDesc]
      by_cases h : key x < key y
      · rw [if_pos h, List.pairwise_cons]
        refine ⟨?_, ih hys⟩
        intro z hz
        rcases (mem_insertDesc key x z ys).mp hz with rfl | hz'
        · exact le_of_lt h
        · exact hy z hz'
      · rw [if_neg h, List.pairwise_cons]
        push_neg at h
        refine ⟨?_, List.pairwise_cons.mpr ⟨hy, hys⟩⟩
        intro z hz
        rcases List.mem_cons.mp hz with rfl | hz'
        · exact h
        · exact le_trans (hy z hz') h

/-- The output of the stable descending sort is non-increasing in the key. -/
theorem sorted_sortDescBy {α : Type} (key : α → ℚ) :
    ∀ l : List α, List.Pairwise (fun a b => key b ≤ key a) (sortDescBy key l) := by
  intro l
  induction l with
  | nil => simp [sortDescBy]
  | cons x xs ih => exact pairwise_insertDesc key x (sortDescBy key xs) ih

theorem filter_insertDesc_eq {α : Type} (key : α → ℚ) (x : α) (s : ℚ)
    (hx : key x = s) :
    ∀ l : List α,
      (insertDesc key x l).filter (fun a => key a = s)
        = x :: l.filter (fun a => key a = s) := by
  intro l
  induction l with
  | nil => simp [insertDesc, List.filter, hx]
  | cons y ys ih =>
      simp only [insertDesc]
      by_cases h : key x < key y
      · rw [if_pos h]
        have hy : ¬ (key y = s) := by
          intro hys
          rw [hx, hys] at h
          exact lt_irrefl s h
        simp only [List.filter_cons, ih]
        simp [hy]
      · rw [if_neg h]
        simp [List.filter_cons, hx]

theorem filter_insertDesc_ne {α : Type} (key : α → ℚ) (x : α) (s : ℚ)
    (hx : key x ≠ s) :
    ∀ l : List α,
      (insertDesc key x l).filter (fun a => key a = s)
        = l.filter (fun a => key a = s) := by
  intro l
  induction l with
  | nil => simp [insertDesc, List.filter, hx]
  | cons y ys ih =>
      simp only [insertDesc]
      by_cases h : key x < key y
      · rw [if_pos h]
        simp only [List.filter_cons, ih]
      · rw [if_neg h]
        simp [List.filter_cons, hx]

/-- Stability: within each equal-key class the sort preserves the input
order (the filtering by any fixed key value is unchanged). -/
theorem filter_sortDescBy {α : Type} (key : α → ℚ) (s : ℚ) :
    ∀ l : List α,
      (sortDescBy key l).filter (fun a => key a = s)
        = l.filter (fun a => key a = s) := by
  intro l
  induction l with
  | nil => rfl
  | cons x xs ih =>
      simp only [sortDescBy]
      by_cases hx : key x = s
      · rw [filter_insertDesc_eq key x s hx, ih]
        simp only [List.filter_cons]
        rw [if_pos (by simpa using hx)]
      · rw [filter_insertDesc_ne key x s hx, ih]
        simp only [List.filter_cons]
        rw [if_neg (by simpa using hx)]

/-- The similarity service's mutable state: the lazily loaded model
(`self._model`, `None` until first use) plus a count of embedding-model
factory invocations (each run of `self._model = self._model_factory()`). -/
structure SimState where
  model : Option (String → List ℚ)
  factoryCalls : ℕ

/-- Embedding of `load_model` followed by the `self._model` read: constructs the model
through the factory only when `self._model is None`. -/
def loadModel (factory : Unit → (String → List ℚ)) (st : SimState) :
    (String → List ℚ) × SimState :=
  match st.model with
  | some m => (m, st)
  | none =>
      let m := factory ()
      (m, { model := some m, factoryCalls := st.factoryCalls + 1 })

/-- Embedding of `model.encode(texts)`: one embedding vector per input string, per
`EmbeddingModelProtocol`. -/
def encodeBatch (m : String → List ℚ) (texts : List String) : List (List ℚ) :=
  texts.map m

/-- Embedding of `SimilarityService.compute(to_compare, candidates)`: empty
candidates
short-circuit before the model load; otherwise encode
`[to_compare] + candidates` as one batch, score each candidate vector
against the query vector (`sim` stands for `_cosine_similarity`), and
stable-sort by descending score. -/
def compute (factory : Unit → (String → List ℚ))
    (sim : List ℚ → List ℚ → ℚ) (st : SimState)
    (to_compare : String) (candidates : List String) :
    List (String × ℚ) × SimState :=
  if candidates.isEmpty then ([], st)
  else
    let ms := loadModel factory st
    let all_strings := to_compare :: candidates
    let embeddings := encodeBatch ms.1 all_strings
    let query_vector := embeddings.headD []
    let candidate_vectors := embeddings.drop 1
    let results := (candidates.zip candidate_vectors).map
      (fun p => (p.1, sim query_vector p.2))
    (sortDescBy (fun p => p.2) results, ms.2)

/-- The unsorted `(candidate, score)` pairs in input order. -/
def simPairs (m : String → List ℚ) (sim : List ℚ → List ℚ → ℚ)
    (to_compare : String) (candidates : List String) : List (String × ℚ) :=
  candidates.map (fun c => (c, sim (m to_compare) (m c)))

theorem map_zip_map_self (m : String → List ℚ) (score : List ℚ → ℚ) :
    ∀ cs : List String,
      (cs.zip (cs.map m)).map (fun p => (p.1, score p.2))
        = cs.map (fun c => (c, score (m c))) := by
  intro cs
  induction cs with
  | nil => rfl
  | cons c rest ih => simp [ih]

theorem compute_eq_sorted_pairs (factory : Unit → (String → List ℚ))
    (sim : List ℚ → List ℚ → ℚ) (st : SimState)
    (q : String) (cs : List String) (h : cs ≠ []) :
    (compute factory sim st q cs).1
      = sortDescBy (fun p => p.2) (simPairs (loadModel factory st).1 sim q cs) := by
  unfold compute
  rw [if_neg (by simpa using h)]
  simp only [encodeBatch, simPairs, List.map_cons, List.headD_cons,
    List.drop_succ_cons, List.drop_zero]
  congr 1
  exact map_zip_map_self (loadModel factory st).1
    (fun v => sim ((loadModel factory st).1 q) v) cs

/-- C5: for every query string and non-empty candidate list, `compute`
returns exactly `len(candidates)` `(candidate, score)` pairs, sorted by
non-increasing similarity score, and within every class of equal scores
the candidates appear in their original input order (stable sort). -/
theorem c5_compute_sorted (factory : Unit → (String → List ℚ))
    (sim : List ℚ → List ℚ → ℚ) (st : SimState)
    (q : String) (cs : List String) (h : cs ≠ []) :
    (compute factory sim st q cs).1.length = cs.length ∧
    List.Pairwise (fun a b => b.2 ≤ a.2) (compute factory sim st q cs).1 ∧
    ∀ s : ℚ,
      (compute factory sim st q cs).1.filter (fun p => p.2 = s)
        = (simPairs (loadModel factory st).1 sim q cs).filter
            (fun p => p.2 = s) := by
  rw [compute_eq_sorted_pairs factory sim st q cs h]
  refine ⟨?_, sorted_sortDescBy _ _, fun s => filter_sortDescBy _ s _⟩
  rw [length_sortDescBy]
  simp [simPairs]

theorem c5_witness :
    (["b", "a", "c"] : List String) ≠ [] ∧
    (compute (fun _ => fun t => [(t.length : ℚ)])
        (fun v w => v.headD 0 - w.headD 0)
        { model := none, factoryCalls := 0 } "qq" ["b", "a", "c"]).1.length
      = 3 ∧
    List.Pairwise (fun a b => b.2 ≤ a.2)
      (compute (fun _ => fun t => [(t.length : ℚ)])
        (fun v w => v.headD 0 - w.headD 0)
        { model := none, factoryCalls := 0 } "qq" ["b", "a", "c"]).1 ∧
    (compute (fun _ => fun t => [(t.length : ℚ)])
        (fun v w => v.headD 0 - w.headD 0)
        { model := none, factoryCalls := 0 } "qq" ["b", "a", "c"]).1.filter
        (fun p => p.2 = (1 : ℚ))
      = (simPairs (loadModel (fun _ => fun t => [(t.length : ℚ)])
            { model := none, factoryCalls := 0 }).1
          (fun v w => v.headD 0 - w.headD 0) "qq" ["b", "a", "c"]).filter
          (fun p => p.2 = (1 : ℚ)) := by
  have h := c5_compute_sorted (fun _ => fun t => [(t.length : ℚ)])
    (fun v w => v.headD 0 - w.headD 0)
    { model := none, factoryCalls := 0 } "qq" ["b", "a", "c"]
    (by decide)
  exact ⟨by decide, h.1, h.2.1, h.2.2 1⟩

/-- C6: `compute(query, [])` returns the empty result and leaves the
service state untouched: the model field is unchanged (still `Unloaded`
when it was `Unloaded`) and the embedding-model factory is not invoked. -/
theorem c6_compute_empty (factory : Unit → (String → List ℚ))
    (sim : List ℚ → List ℚ → ℚ) (st : SimState) (q : String) :
    compute factory sim st q [] = ([], st) ∧
    (compute factory sim st q []).2.model = st.model ∧
    (compute factory sim st q []).2.factoryCalls = st.factoryCalls :=
  ⟨rfl, rfl, rfl⟩

/-! ## Claim C8 — `NyaaParser.parse_api_metadata`
(`anifeed/services/parsers/nyaa_parser.py`)

A `<td>` cell is embedded as its ordered child nodes — text pieces and
anchors; BeautifulSoup's `td.text` concatenates all contained text (anchor
labels included) and `td.find_all("a")` lists the anchors in order. -/

/-- A child node of a table cell: a text fragment or an `<a href>` anchor
with its label text. -/
inductive TdNode where
  | txt (s : String)
  | anchor (href : String) (label : String)
deriving Repr

/-- A `<td>` cell. -/
structure Td where
  nodes : List TdNode
deriving Repr

/-- A `<tr>` row: its `<td>` cells in order (`row.find_all("td")`). -/
structure HtmlRow where
  cells : List Td
deriving Repr

/-- Embedding of `td.text`: the concatenation of all contained text. -/
def tdText (td : Td) : String :=
  td.nodes.foldr
    (fun n acc => (match n with | .txt s => s | .anchor _ l => l) ++ acc) ""

/-- Embedding of `td.find_all("a")` as `(href, label)` pairs, in document
order. -/
def tdAnchors (td : Td) : List (String × String) :=
  td.nodes.filterMap
    (fun n => match n with | .anchor h l => some (h, l) | _ => none)

/-- Embedding of `[x["href"] for x in td.find_all("a")]`. -/
def tdAnchorHrefs (td : Td) : List String := (tdAnchors td).map Prod.fst

/-- The `Torrent` dataclass (`anifeed/models/torrent_model.py`). -/
structure Torrent where
  torrent_id : String
  title : String
  download_url : String
  size : String
  seeders : Int
  leechers : Int
deriving Repr, DecidableEq

/-- The maximal leading digit run. -/
def takeDigits : List Char → List Char
  | [] => []
  | c :: cs => if c.isDigit then c :: takeDigits cs else []

/-- Embedding of `re.search("/view/([0-9]+)", s)` followed by `.group(1)`:
the digit run
of the leftmost match of `/view/` followed by at least one digit. -/
def findViewIdAux : List Char → Option String
  | [] => none
  | c :: rest =>
      if List.take 6 (c :: rest) = ['/', 'v', 'i', 'e', 'w', '/'] then
        let ds := takeDigits (List.drop 6 (c :: rest))
        if ds.isEmpty then findViewIdAux rest else some (String.mk ds)
      else findViewIdAux rest

def searchViewId (s : String) : Option String := findViewIdAux s.data

def pyDigitsToNat (ds : List Char) : ℕ :=
  ds.foldl (fun acc c => acc * 10 + (c.toNat - '0'.toNat)) 0

/-- Python's `int(str)`: surrounding whitespace stripped, an optional sign,
then at least one decimal digit; `ValueError` (here `none`) otherwise. -/
def pyInt (s : String) : Option Int :=
  let t := (s.data.dropWhile Char.isWhitespace).reverse.dropWhile
      Char.isWhitespace |>.reverse
  match t with
  | [] => none
  | '+' :: ds =>
      if ds ≠ [] ∧ ds.all Char.isDigit then some (Int.ofNat (pyDigitsToNat ds))
      else none
  | '-' :: ds =>
      if ds ≠ [] ∧ ds.all Char.isDigit then some (-(Int.ofNat (pyDigitsToNat ds)))
      else none
  | ds =>
      if ds.all Char.isDigit then some (Int.ofNat (pyDigitsToNat ds)) else none

/-- Embedding of `s.replace("\n", "")`. -/
def removeNewlines (s : String) : String :=
  String.mk (s.data.filter (fun c => c ≠ '\n'))

/-- One iteration of the row loop of `NyaaParser.parse_api_metadata`: any
missing cell, missing anchor, failed regex match or non-integer count is a
raised exception, embedded as `none`. -/
def nyaaParseRow (row : HtmlRow) : Option Torrent := do
  let c1 ← row.cells[1]?
  let c2 ← row.cells[2]?
  let c3 ← row.cells[3]?
  let c5 ← row.cells[5]?
  let c6 ← row.cells[6]?
  let href0 ← (tdAnchorHrefs c1)[0]?
  let dl0 ← (tdAnchorHrefs c2)[0]?
  let tid ← searchViewId href0
  let se ← pyInt (tdText c5)
  let le ← pyInt (tdText c6)
  some { torrent_id := tid,
         title := removeNewlines (tdText c1),
         download_url := dl0,
         size := tdText c3,
         seeders := se,
         leechers := le }

/-- Embedding of `NyaaParser.parse_api_metadata` over the rows of the table
body: one
record per row, an exception anywhere aborting the whole parse. -/
def nyaaParseApiMetadata (rows : List HtmlRow) : Option (List Torrent) :=
  rows.mapM nyaaParseRow

/-- The claim's reading of the row title: the *first anchor's* text in the
title cell, newline-stripped. -/
def specRowTitle (row : HtmlRow) : Option String := do
  let c1 ← row.cells[1]?
  let a0 ← (tdAnchors c1)[0]?
  some (removeNewlines a0.2)

example : pyInt "150" = some 150 := by decide
example : searchViewId "/view/1234567" = some "1234567" := by rfl

/-- A well-formed Nyaa result row whose title cell holds two anchors (as on
the live site, where a comments anchor precedes the title anchor): the
first anchor's text is `"5"`, the cell's full text is `"5Show"`. -/
def c8CounterRow : HtmlRow :=
  { cells :=
      [ ⟨[]⟩,
        ⟨[.anchor "/view/10#comments" "5", .anchor "/view/10" "Show"]⟩,
        ⟨[.anchor "/download/10.torrent" ""]⟩,
        ⟨[.txt "1.3 GiB"]⟩,
        ⟨[]⟩,
        ⟨[.txt "150"]⟩,
        ⟨[.txt "25"]⟩ ] }

/-- C8, counterexample: the code takes `content[1].text` — the title
*cell's* entire text — not the first anchor's text, so on a row whose
title cell contains more than one anchor the parsed title (`"5Show"`)
differs from the claimed first-anchor title (`"5"`). -/
theorem c8_counterexample :
    (nyaaParseRow c8CounterRow).map Torrent.title = some "5Show" ∧
    specRowTitle c8CounterRow = some "5" ∧
    (nyaaParseRow c8CounterRow).map Torrent.title ≠ specRowTitle c8CounterRow := by
  refine ⟨rfl, rfl, ?_⟩
  decide

/-- C8 (amended): for every well-formed torrent search-result row — at
least seven cells, a first title-cell anchor whose target matches
`/view/(\d+)`, a first links-cell anchor, integer seeder/leecher column
text — `parse_api_metadata` yields one record whose seeder and leecher
counts are the integers matching the literal text of the fixed
seeder/leecher columns (cells 5 and 6), whose download URL is the first
link in the links cell (cell 2), whose identifier is the digits extracted
by `/view/(\d+)` from the first title-cell anchor's target, and whose
title is the *entire text of the title cell* (all anchors' text
concatenated) with newlines removed — equal to the first anchor's text
only when the cell contains no other text. -/
theorem c8_row_parsing (row : HtmlRow) (c1 c2 c3 c5 c6 : Td)
    (href0 dl0 tid : String) (se le : Int)
    (h1 : row.cells[1]? = some c1) (h2 : row.cells[2]? = some c2)
    (h3 : row.cells[3]? = some c3) (h5 : row.cells[5]? = some c5)
    (h6 : row.cells[6]? = some c6)
    (ha : (tdAnchorHrefs c1)[0]? = some href0)
    (hd : (tdAnchorHrefs c2)[0]? = some dl0)
    (ht : searchViewId href0 = some tid)
    (hs : pyInt (tdText c5) = some se)
    (hl : pyInt (tdText c6) = some le) :
    nyaaParseRow row
      = some { torrent_id := tid,
               title := removeNewlines (tdText c1),
               download_url := dl0,
               size := tdText c3,
               seeders := se,
               leechers := le } := by
  simp [nyaaParseRow, h1, h2, h3, h5, h6, ha, hd, ht, hs, hl]

/-- The well-formed row of the repository's own test fixture
(`tests/conftest.py::nyaa_html_response`), with the title anchor given a
`/view/`-style target. -/
def c8WitnessRow : HtmlRow :=
  { cells :=
      [ ⟨[]⟩,
        ⟨[.anchor "/view/1234567"
            "[SubsPlease] Yofukashi no Uta - 01 [1080p].mkv"]⟩,
        ⟨[.anchor "https://nyaa.si/download/1234567.torrent" "",
          .anchor "magnet:?xt=urn:btih:abc123" ""]⟩,
        ⟨[.txt "1.3 GiB"]⟩,
        ⟨[]⟩,
        ⟨[.txt "150"]⟩,
        ⟨[.txt "25"]⟩ ] }

theorem c8_witness :
    nyaaParseRow c8WitnessRow
      = some { torrent_id := "1234567",
               title := "[SubsPlease] Yofukashi no Uta - 01 [1080p].mkv",
               download_url := "https://nyaa.si/download/1234567.torrent",
               size := "1.3 GiB",
               seeders := 150,
               leechers := 25 } := by
  have h := c8_row_parsing c8WitnessRow _ _ _ _ _
    "/view/1234567" "https://nyaa.si/download/1234567.torrent" "1234567"
    150 25 rfl rfl rfl rfl rfl rfl rfl (by decide) (by decide) (by decide)
  exact h.trans (by decide)

/-! ## Claim C1 — the canonical anime record and its normalizers
(`anifeed/models/anime_model.py`, `mal_parser.py`, `anilist_parser.py`)

The `Anime` dataclass of `anime_model.py` declares exactly the fields
`title_romaji`, `title_english`, `status`, `episodes`.  Both normalizers —
and the repository's own tests (`tests/test_models.py`,
`tests/conftest.py`) and DB mappers (`anifeed/db/mappers.py`) — construct
`Anime` with the keyword arguments `anime_id` and `source` as well, which
the declared dataclass rejects with a `TypeError`.  Moreover the source
tag passed by `AniListParser` is `AniListParser.__class__.__name__`, i.e.
the *metaclass* name `"type"`, not the adapter's name (`MalParser`
correctly passes `self.__class__.__name__`). -/

/-- The field list of the `Anime` dataclass as declared in
`anifeed/models/anime_model.py`. -/
def animeModelFields : List String :=
  ["title_romaji", "title_english", "status", "episodes"]

/-- The field list the repository's tests and mappers require of `Anime`. -/
def animeIntendedFields : List String :=
  ["anime_id", "source", "title_romaji", "title_english", "status", "episodes"]

/-- The keyword arguments `MalParser.parse_api_metadata` passes to
`Anime(...)`. -/
def malParserAnimeKwargs : List String :=
  ["anime_id", "source", "title_romaji", "title_english", "episodes", "status"]

/-- The keyword arguments `AniListParser.parse_api_metadata` passes to
`Anime(...)`. -/
def aniListParserAnimeKwargs : List String :=
  ["anime_id", "source", "title_romaji", "title_english", "episodes", "status"]

/-- Value of `self.__class__.__name__` inside `MalParser.parse_api_metadata`. -/
def malParserSourceTag : String := "MalParser"

/-- Value of `AniListParser.__class__.__name__` as written in
`AniListParser.parse_api_metadata`: the class of a class is its metaclass
`type`, so this evaluates to `"type"`. -/
def aniListParserSourceTag : String := "type"

/-- A Python dataclass constructor call accepts a keyword-argument set only
when every keyword names a declared field (an unexpected keyword raises
`TypeError`). -/
def dataclassAcceptsKwargs (fields kwargs : List String) : Bool :=
  kwargs.all (fields.contains ·)

/-- C1 (failing): both normalizers construct the canonical record with
`anime_id` and `source` keyword arguments that the declared `Anime`
dataclass does not accept — every parse of a payload with at least one
entry raises `TypeError` — while the field set the repository's own tests
and mappers demand does accept them; and even under the intended record,
`AniListParser`'s source tag is the metaclass name `"type"`, which does
not name the adapter. -/
theorem c1_anime_record_construction :
    dataclassAcceptsKwargs animeModelFields malParserAnimeKwargs = false ∧
    dataclassAcceptsKwargs animeModelFields aniListParserAnimeKwargs = false ∧
    ("anime_id" ∈ malParserAnimeKwargs ∧ "anime_id" ∉ animeModelFields) ∧
    ("source" ∈ malParserAnimeKwargs ∧ "source" ∉ animeModelFields) ∧
    dataclassAcceptsKwargs animeIntendedFields malParserAnimeKwargs = true ∧
    dataclassAcceptsKwargs animeIntendedFields aniListParserAnimeKwargs = true ∧
    malParserSourceTag = "MalParser" ∧
    aniListParserSourceTag ≠ "AniListParser" := by
  refine ⟨rfl, rfl, ⟨by decide, by decide⟩, ⟨by decide, by decide⟩,
    rfl, rfl, rfl, by decide⟩
